import Mathlib

/-!
Shallow embedding of the core logic of the fastgrade application
(`src/App.jsx`): the score aggregator `calculateTotals`, the final state
update performed by the grading operation `gradeOne`, the submission
splitter `splitStudentsFromText`, and the Total-Score cell of `exportCSV`.

Conventions of the embedding:
* JavaScript numbers are modelled as rationals (`ℚ`); `parseFloat` results
  are modelled as `Option ℚ`, with `none` standing for `NaN`
  (a missing or non-numeric field).
* The JavaScript coercion `x || d` on numbers maps `NaN`, `0` and `-0`
  to `d`; on `Option ℚ` this is `none ↦ d`, `some 0 ↦ d`, `some v ↦ v`.
* Strings are processed as `List Char`; the regex character class `\s`
  and `String.prototype.trim` are modelled over the ASCII whitespace
  characters (space, tab, LF, CR, VT, FF).
-/

namespace Fastgrade

/- ------------------------------------------------------------------
   Data model: the untrusted grading result returned by the model
   (fields of the JSON shape requested in `gradeOne`), and the per-record
   state of a student submission.
   ------------------------------------------------------------------ -/

/-- One entry of the `questions` array of a grading result.  Only the
fields read by `calculateTotals` / `exportCSV` aggregation are embedded;
score fields hold the `parseFloat` image of the raw JSON value
(`none` = missing or non-numeric, i.e. `parseFloat` returned `NaN`). -/
structure Question where
  id : String
  questionscore : Option ℚ
  maxscore : Option ℚ
deriving Repr, DecidableEq

/-- The untrusted external grading result (`result` object).  `questions`
is `none` when the field is absent; note that an empty array is a present
(and truthy) field. -/
structure GradingResult where
  student_name : Option String
  total_score : Option ℚ
  testworth : Option ℚ
  questions : Option (List Question)
  feedback : Option String
deriving Repr, DecidableEq

/-- The empty object `{}` (every field absent). -/
def emptyResult : GradingResult :=
  { student_name := none, total_score := none, testworth := none
    questions := none, feedback := none }

/-- Output record of `calculateTotals` (source field names `total`,
`worth`, `pct`). -/
structure Totals where
  total : ℚ
  worth : ℚ
  pct : ℚ
deriving Repr, DecidableEq

/-- JavaScript `v || d` for a number `v` that may be `NaN` (`none`):
`NaN` and `0` are falsy and give `d`. -/
def jsOr (v : Option ℚ) (d : ℚ) : ℚ :=
  match v with
  | none => d
  | some x => if x = 0 then d else x

/-- Embedding of `calculateTotals` (App.jsx lines 12–36).  The argument is
`none` for a falsy (`null`/`undefined`) result.  The `console.warn`
reconciliation message (lines 29–33) has no effect on the returned value
and is not modelled. -/
def calculateTotals (result : Option GradingResult) : Totals :=
  match result with
  | none => { total := 0, worth := 0, pct := 0 }
  | some r =>
    match r.questions with
    | none => { total := 0, worth := 0, pct := 0 }
    | some qs =>
      let total := qs.foldl (fun sum q => sum + jsOr q.questionscore 0) 0
      let worth := jsOr r.testworth
        (qs.foldl (fun sum q => sum + jsOr q.maxscore 1) 0)
      let pct := if worth > 0 then (total / worth) * 100 else 0
      { total := total, worth := worth, pct := pct }

/- ------------------------------------------------------------------
   Grading lifecycle: the record update performed by one `gradeOne` run.
   ------------------------------------------------------------------ -/

/-- Lifecycle tag of a student record (the source stores it as a string;
`processing` carries the elapsed-seconds counter interpolated into the
string). -/
inductive Status where
  | idle
  | sent
  | processing (elapsed : Nat)
  | received
  | displayed
  | error
deriving Repr, DecidableEq

/-- The value stored into `student.result` by `gradeOne`: either the
object produced by a successful `JSON.parse`, or the
`{ error: "Could not parse GPT response", raw: text }` object built in
the catch branch of the parse. -/
inductive ParsedVal where
  | ok (r : GradingResult)
  | parseError (raw : String)
deriving Repr, DecidableEq

/-- One student record (source object literal `{name, content, result,
status, gradedAt, elapsed}`; the `elapsed` timer counter is UI feedback
only and is not embedded). -/
structure StudentRecord where
  name : String
  content : String
  result : Option ParsedVal
  status : Status
  gradedAt : Option String
deriving Repr, DecidableEq

/-- Outcome of the awaited `fetch` + `response.json()` step of `gradeOne`,
supplied as a parameter of the embedding (the HTTP call is external).
* `reject`: the fetch (or reading its body) rejected — transport failure.
* `resolve ok text parsed`: the request resolved; `ok` is the HTTP
  success flag of the response (never inspected by the source), `text`
  is `data?.choices?.[0]?.message?.content ?? ""`, and `parsed` is the
  outcome of `JSON.parse` on the fence-stripped text (`none` = throw). -/
inductive FetchOutcome where
  | reject
  | resolve (ok : Bool) (text : String) (parsed : Option GradingResult)
deriving Repr, DecidableEq

/-- Embedding of the final record state produced by one run of `gradeOne`
(App.jsx lines 240–313) on record `rec`, where `now` is the
`new Date().toISOString()` value at completion time.  The intermediate
`sent`/`processing`/`received` updates and the one-second timer are
transient UI states subsumed by the final update. -/
def gradeOne (rec : StudentRecord) (now : String) (out : FetchOutcome) :
    StudentRecord :=
  match out with
  | .reject => { rec with status := .error }
  | .resolve _ text parsed =>
    let stored : ParsedVal :=
      match parsed with
      | some p => .ok p
      | none => .parseError text
    { rec with result := some stored, gradedAt := some now,
               status := .displayed }

/- ------------------------------------------------------------------
   Submission splitter: `splitStudentsFromText` (App.jsx lines 94–108).

   The source splits with
     text.split(/\n\s*(Student:|Name:|Page \d+|-----+)\s*\n/i)
   (a regex with one capture group, so JavaScript `split` keeps each
   captured delimiter in the output array), trims every piece, drops the
   empty ones, and then pairs the pieces two by two.

   The regex is embedded as a hand-rolled matcher.  Its backtracking is
   deterministic here: the four alternatives start with distinct
   non-whitespace first letters, and the greedy `\s*`, `\d+` and dash
   runs cannot trade characters with their successors (a digit or dash
   is not whitespace), so maximal-munch scanning is exact.  The trailing
   `\s*\n` consumes the whitespace run after the token up to and
   including its last newline.
   ------------------------------------------------------------------ -/

/-- The regex class `\s` and `trim`, restricted to ASCII whitespace. -/
def jsWs (c : Char) : Bool :=
  c = ' ' || c = '\t' || c = '\n' || c = '\r' || c = '\x0b' || c = '\x0c'

/-- ASCII lower-casing; the `i` flag of the source regex canonicalises
only ASCII letters (the regex has no `u` flag and every pattern letter is
ASCII). -/
def lowerAscii (c : Char) : Char :=
  if 'A' ≤ c && c ≤ 'Z' then Char.ofNat (c.toNat + 32) else c

/-- Digit test for the regex class `\d`. -/
def isDigitCh (c : Char) : Bool := '0' ≤ c && c ≤ '9'

/-- Case-insensitive literal match of pattern `pat` at the front of `s`;
returns the matched characters (original case) and the rest. -/
def matchLit : List Char → List Char → Option (List Char × List Char)
  | [], s => some ([], s)
  | _ :: _, [] => none
  | p :: ps, c :: cs =>
    if lowerAscii c = lowerAscii p then
      match matchLit ps cs with
      | some (cap, rest) => some (c :: cap, rest)
      | none => none
    else none

/-- The alternative `Page \d+`: the literal `Page ` (case-insensitive)
followed by a maximal nonempty digit run. -/
def matchPage (s : List Char) : Option (List Char × List Char) :=
  match matchLit "page ".data s with
  | some (cap, rest) =>
    let digits := rest.takeWhile isDigitCh
    if digits.isEmpty then none
    else some (cap ++ digits, rest.dropWhile isDigitCh)
  | none => none

/-- The alternative `-----+`: a maximal run of at least five dashes
(four literal dashes and a `+`-repeated fifth). -/
def matchDashes (s : List Char) : Option (List Char × List Char) :=
  let ds := s.takeWhile (fun c => c = '-')
  if 5 ≤ ds.length then some (ds, s.dropWhile (fun c => c = '-')) else none

/-- The capture group `(Student:|Name:|Page \d+|-----+)`, alternatives in
source order. -/
def matchAlt (s : List Char) : Option (List Char × List Char) :=
  match matchLit "student:".data s with
  | some r => some r
  | none =>
    match matchLit "name:".data s with
    | some r => some r
    | none =>
      match matchPage s with
      | some r => some r
      | none => matchDashes s

/-- The trailing `\s*\n` of the delimiter regex: the whitespace run after
the token must contain a newline; the (greedy, backtracking) match ends
at the last newline of that run, and the characters after it are returned
as the remainder of the input. -/
def chopAfter (s : List Char) : Option (List Char) :=
  let run := s.takeWhile jsWs
  let rest := s.dropWhile jsWs
  if run.contains '\n' then
    some ((run.reverse.takeWhile (fun c => ¬(c = '\n'))).reverse ++ rest)
  else none

/-- Match of the whole delimiter regex `\n\s*(…)\s*\n` starting exactly
at the head of `s`; returns the captured delimiter and the remaining
input after the match. -/
def matchDelimAt (s : List Char) : Option (List Char × List Char) :=
  match s with
  | c :: rest =>
    if c = '\n' then
      match matchAlt (rest.dropWhile jsWs) with
      | some (cap, after) =>
        match chopAfter after with
        | some rem => some (cap, rem)
        | none => none
      | none => none
    else none
  | [] => none

/-- JavaScript `split` with a keep-delimiter capture group, as a fuelled
left-to-right scan: returns the chunk before the first match (prefixed
by the reversed accumulator `acc`) and the list of
(captured delimiter, following chunk) pairs.  Every step either advances
one character or consumes a whole match, so fuel `s.length + 1` is
exact; on exhausted fuel the unscanned rest is returned as chunk. -/
def splitKeep (fuel : Nat) (acc : List Char) (s : List Char) :
    List Char × List (List Char × List Char) :=
  match fuel with
  | 0 => (acc.reverse ++ s, [])
  | fuel + 1 =>
    match matchDelimAt s with
    | some (cap, rem) =>
      let next := splitKeep fuel [] rem
      (acc.reverse, (cap, next.1) :: next.2)
    | none =>
      match s with
      | [] => (acc.reverse, [])
      | c :: cs => splitKeep fuel (c :: acc) cs

/-- The full regex scan of the input text: first chunk and the
(delimiter, chunk) pairs of every match, in order.  The JavaScript
`split` array is `scan.1 :: scan.2.flatMap (fun p => [p.1, p.2])`. -/
def scanText (text : String) : List Char × List (List Char × List Char) :=
  splitKeep (text.data.length + 1) [] text.data

/-- JavaScript `String.prototype.trim` (over the modelled whitespace). -/
def jsTrim (l : List Char) : List Char :=
  ((l.dropWhile jsWs).reverse.dropWhile jsWs).reverse

/-- The pairing loop of `splitStudentsFromText`: for `i = 0, 2, 4, …`
push `parts[i] + (parts[i+1] ? "\n" + parts[i+1] : "")` — an out-of-range
or empty `parts[i+1]` is falsy and contributes nothing. -/
def pairUp : List (List Char) → List (List Char)
  | [] => []
  | [a] => [a]
  | a :: b :: rest =>
    (if b.isEmpty then a else a ++ '\n' :: b) :: pairUp rest

/-- The `parts` array of `splitStudentsFromText`: the split pieces (the
first chunk, then each kept delimiter and its following chunk), each
trimmed, with the empty ones dropped. -/
def splitParts (text : String) : List (List Char) :=
  (jsTrim (scanText text).1 ::
      (scanText text).2.flatMap fun p => [jsTrim p.1, jsTrim p.2]).filter
    fun t => 0 < t.length

/-- Embedding of `splitStudentsFromText` (App.jsx lines 94–108). -/
def splitStudentsFromText (text : String) : List String :=
  if (splitParts text).length ≤ 1 then [text]
  else (pairUp (splitParts text)).map fun l => String.mk l

/- ------------------------------------------------------------------
   CSV export: the Total Score cell of one row (App.jsx lines 351–353).
   ------------------------------------------------------------------ -/

/-- The argument `s.result || {}` passed to `calculateTotals` by
`exportCSV`: a falsy (`null`) result becomes the empty object, a stored
parse-error object `{error, raw}` has no `questions` field and behaves
as the empty result for aggregation. -/
def resultOrEmpty (v : Option ParsedVal) : Option GradingResult :=
  match v with
  | none => some emptyResult
  | some (.ok r) => some r
  | some (.parseError _) => some emptyResult

/-- The `Total Score` column value of one CSV row:
`const { total } = calculateTotals(s.result || {})`. -/
def exportRowTotal (s : StudentRecord) : ℚ :=
  (calculateTotals (resultOrEmpty s.result)).total

/-- The worth formula exactly as claim C7 words it: the declared
`testworth` when present and truthy, otherwise the sum of each question's
`maxscore` taken as a number, with only a *missing* `maxscore` defaulting
to 1 (so a present zero counts as zero).  Stated for comparison with the
source's `calculateTotals`. -/
def worthClaimC7 (r : GradingResult) : ℚ :=
  match r.questions with
  | none => 0
  | some qs =>
    match r.testworth with
    | some w => if w = 0 then (qs.map fun q => q.maxscore.getD 1).sum else w
    | none => (qs.map fun q => q.maxscore.getD 1).sum

/- ------------------------------------------------------------------
   Helper lemmas.
   ------------------------------------------------------------------ -/

theorem foldl_add_map {α : Type} (f : α → ℚ) :
    ∀ (l : List α) (a : ℚ),
      l.foldl (fun s q => s + f q) a = a + (l.map f).sum
  | [], a => by simp
  | x :: xs, a => by
    rw [List.map_cons, List.foldl_cons, List.sum_cons, foldl_add_map f xs]
    ring

theorem jsOr_maxscore_match (q : Question) :
    jsOr q.maxscore 1 =
      match q.maxscore with
      | none => (1 : ℚ)
      | some m => if m = 0 then 1 else m := by
  cases q.maxscore <;> rfl

/- ------------------------------------------------------------------
   Claims about the score aggregator and the CSV total.
   ------------------------------------------------------------------ -/

/-- Claim C6: for every grading result with a question list, the
aggregated total is the sum of the per-question `questionscore` values
coerced through `parseFloat(…) || 0`, it does not depend on the
model-reported `total_score`, and the CSV `Total Score` cell uses this
recomputed total. -/
theorem calculateTotals_total_sum (rec : StudentRecord) (r : GradingResult)
    (qs : List Question) (hres : rec.result = some (ParsedVal.ok r))
    (hq : r.questions = some qs) :
    (calculateTotals (some r)).total
        = (qs.map fun q => jsOr q.questionscore 0).sum ∧
    (∀ x : Option ℚ,
      (calculateTotals (some { r with total_score := x })).total
        = (calculateTotals (some r)).total) ∧
    exportRowTotal rec = (calculateTotals (some r)).total := by
  refine ⟨?_, ?_, ?_⟩
  · simp only [calculateTotals, hq]
    rw [foldl_add_map (fun q => jsOr q.questionscore 0) qs 0, zero_add]
  · intro x
    simp only [calculateTotals, hq]
  · simp only [exportRowTotal, resultOrEmpty, hres]

/-- Concrete instance of `calculateTotals_total_sum`. -/
def q0 : Question := { id := "q1", questionscore := some 2, maxscore := some 3 }

def r0 : GradingResult :=
  { student_name := some "Alice", total_score := some 99, testworth := none
    questions := some [q0], feedback := none }

def rec0 : StudentRecord :=
  { name := "alice.txt", content := "text", result := some (ParsedVal.ok r0)
    status := Status.displayed, gradedAt := none }

theorem calculateTotals_total_sum_witness :
    rec0.result = some (ParsedVal.ok r0) ∧ r0.questions = some [q0] ∧
    ((calculateTotals (some r0)).total
        = ([q0].map fun q => jsOr q.questionscore 0).sum ∧
     (∀ x : Option ℚ,
       (calculateTotals (some { r0 with total_score := x })).total
         = (calculateTotals (some r0)).total) ∧
     exportRowTotal rec0 = (calculateTotals (some r0)).total) :=
  ⟨rfl, rfl, calculateTotals_total_sum rec0 r0 [q0] rfl rfl⟩

/-- Claim C7 (amended): for every grading result with a question list,
the aggregated worth is the declared `testworth` when present and truthy;
otherwise the sum of the per-question `maxscore` values where a missing,
non-numeric or *zero* `maxscore` contributes 1 (JavaScript
`parseFloat(q.maxscore) || 1` treats a present 0 as falsy too). -/
theorem calculateTotals_worth_falsy (r : GradingResult) (qs : List Question)
    (hq : r.questions = some qs) :
    (calculateTotals (some r)).worth =
      match r.testworth with
      | some w =>
        if w = 0 then
          (qs.map fun q =>
            match q.maxscore with
            | none => (1 : ℚ)
            | some m => if m = 0 then 1 else m).sum
        else w
      | none =>
        (qs.map fun q =>
          match q.maxscore with
          | none => (1 : ℚ)
          | some m => if m = 0 then 1 else m).sum := by
  have hmap : (qs.map fun q => jsOr q.maxscore 1)
      = qs.map fun q =>
          match q.maxscore with
          | none => (1 : ℚ)
          | some m => if m = 0 then 1 else m :=
    List.map_congr_left fun q _ => jsOr_maxscore_match q
  simp only [calculateTotals, hq]
  rw [show (qs.foldl (fun s q => s + jsOr q.maxscore 1) 0)
        = (qs.map fun q => jsOr q.maxscore 1).sum from by
      rw [foldl_add_map (fun q => jsOr q.maxscore 1) qs 0, zero_add], hmap]
  cases r.testworth with
  | none => rfl
  | some w => by_cases hw : w = 0 <;> simp [jsOr, hw]

theorem calculateTotals_worth_falsy_witness :
    r0.questions = some [q0] ∧
    (calculateTotals (some r0)).worth =
      match r0.testworth with
      | some w =>
        if w = 0 then
          ([q0].map fun q =>
            match q.maxscore with
            | none => (1 : ℚ)
            | some m => if m = 0 then 1 else m).sum
        else w
      | none =>
        ([q0].map fun q =>
          match q.maxscore with
          | none => (1 : ℚ)
          | some m => if m = 0 then 1 else m).sum :=
  ⟨rfl, calculateTotals_worth_falsy r0 [q0] rfl⟩

/-- Claim C7 counterexample: a present `maxscore` of 0 is coerced to a
worth of 1 by the source (`parseFloat(q.maxscore) || 1`), while the claim
as stated ("missing maxscore defaults to 1", a present number is used as
is) yields 0. -/
theorem calculateTotals_worth_zero_maxscore_cex :
    (calculateTotals (some { emptyResult with
        questions := some [{ id := "q1", questionscore := some 1,
                             maxscore := some 0 }] })).worth = 1 ∧
    worthClaimC7 { emptyResult with
        questions := some [{ id := "q1", questionscore := some 1,
                             maxscore := some 0 }] } = 0 ∧
    (1 : ℚ) ≠ 0 := by
  refine ⟨?_, ?_, by norm_num⟩
  · simp [calculateTotals, emptyResult, jsOr]
  · simp [worthClaimC7, emptyResult]

/-- Claim C8: the aggregated percentage is `(total / worth) * 100` when
the worth is positive and 0 otherwise, so the division is always guarded
by a positivity test on the divisor. -/
theorem calculateTotals_pct_guard (result : Option GradingResult) :
    (calculateTotals result).pct =
      if 0 < (calculateTotals result).worth then
        (calculateTotals result).total / (calculateTotals result).worth * 100
      else 0 := by
  cases result with
  | none => simp [calculateTotals]
  | some r =>
    cases hq : r.questions with
    | none => simp [calculateTotals, hq]
    | some qs => simp only [calculateTotals, hq]

/-- Claim C9: applying the aggregator to an absent result or to a result
without a `questions` field returns exactly zero total, worth and
percentage. -/
theorem calculateTotals_empty_zero :
    calculateTotals none = { total := 0, worth := 0, pct := 0 } ∧
    ∀ r : GradingResult, r.questions = none →
      calculateTotals (some r) = { total := 0, worth := 0, pct := 0 } := by
  refine ⟨rfl, fun r h => ?_⟩
  simp only [calculateTotals, h]

theorem calculateTotals_empty_zero_witness :
    emptyResult.questions = none ∧
    calculateTotals (some emptyResult) = { total := 0, worth := 0, pct := 0 } :=
  ⟨rfl, calculateTotals_empty_zero.2 emptyResult rfl⟩

/- ------------------------------------------------------------------
   Claims about the grading lifecycle.
   ------------------------------------------------------------------ -/

/-- Claim C2 (amended): when the grading request itself rejects (endpoint
unreachable or response body unreadable) the record moves to `error` with
its result and graded timestamp untouched; a resolved response is never
checked for a non-success HTTP status — it flows into the parse path, and
on parse failure the record reaches `displayed` with a `parseError`
payload stored. -/
theorem gradeOne_transport_error (rec : StudentRecord) (now : String) :
    ((gradeOne rec now FetchOutcome.reject).status = Status.error ∧
     (gradeOne rec now FetchOutcome.reject).result = rec.result ∧
     (gradeOne rec now FetchOutcome.reject).gradedAt = rec.gradedAt) ∧
    ∀ (ok : Bool) (text : String),
      (gradeOne rec now (FetchOutcome.resolve ok text none)).status
          = Status.displayed ∧
      (gradeOne rec now (FetchOutcome.resolve ok text none)).result
          = some (ParsedVal.parseError text) :=
  ⟨⟨rfl, rfl, rfl⟩, fun _ _ => ⟨rfl, rfl⟩⟩

/-- Claim C2 counterexample: a resolved response whose HTTP status is
non-success (`ok := false`) does not put the record in `error`; the
record reaches `displayed` and a (parse-error) result is stored,
contradicting "transitions to `error` and no result is stored". -/
theorem gradeOne_http_status_cex :
    (gradeOne { name := "s1", content := "body", result := none
                status := Status.idle, gradedAt := none } "T0"
        (FetchOutcome.resolve false "" none)).status = Status.displayed ∧
    (gradeOne { name := "s1", content := "body", result := none
                status := Status.idle, gradedAt := none } "T0"
        (FetchOutcome.resolve false "" none)).result
      = some (ParsedVal.parseError "") ∧
    Status.displayed ≠ Status.error :=
  ⟨rfl, rfl, by decide⟩

/-- Claim C5 (amended): the graded timestamp is set to the completion
time on every resolved grading response — after a successful parse and
equally after a parse failure — and is left unchanged on a transport
error. -/
theorem gradeOne_gradedAt_set (rec : StudentRecord) (now : String) :
    (∀ (ok : Bool) (text : String) (parsed : Option GradingResult),
      (gradeOne rec now (FetchOutcome.resolve ok text parsed)).gradedAt
        = some now) ∧
    (gradeOne rec now FetchOutcome.reject).gradedAt = rec.gradedAt :=
  ⟨fun _ _ _ => rfl, rfl⟩

/-- Claim C5 counterexample: a run whose response fails structural
parsing (`parsed := none`) still sets `gradedAt` on a record that had
none, contradicting "if parsing fails then gradedAt is not set". -/
theorem gradeOne_gradedAt_parse_failure_cex :
    (gradeOne { name := "s2", content := "body", result := none
                status := Status.idle, gradedAt := none } "T1"
        (FetchOutcome.resolve true "not json" none)).gradedAt = some "T1" ∧
    (some "T1" : Option String) ≠ none :=
  ⟨rfl, by decide⟩

/- ------------------------------------------------------------------
   Lemmas about the delimiter captures: every captured delimiter token
   is nonempty and has no leading or trailing whitespace, so the `trim`
   applied to all split pieces leaves it unchanged.
   ------------------------------------------------------------------ -/
theorem lowerAscii_ws_fix (c : Char) (h : jsWs c = true) : lowerAscii c = c := by
  simp only [jsWs, Bool.or_eq_true, decide_eq_true_eq] at h
  rcases h with ((((h | h) | h) | h) | h) | h <;> subst h <;> decide

theorem jsWs_false_of_lower {c d : Char} (h : lowerAscii c = d)
    (hd : jsWs d = false) : jsWs c = false := by
  cases hw : jsWs c
  · rfl
  · rw [lowerAscii_ws_fix c hw] at h
    subst h
    simp [hw] at hd

theorem digit_not_ws {c : Char} (h : isDigitCh c = true) : jsWs c = false := by
  simp only [isDigitCh, Bool.and_eq_true, decide_eq_true_eq] at h
  cases hw : jsWs c
  · rfl
  · exfalso
    simp only [jsWs, Bool.or_eq_true, decide_eq_true_eq] at hw
    rcases hw with ((((h' | h') | h') | h') | h') | h' <;> subst h' <;>
      revert h <;> decide

theorem matchLit_ends :
    ∀ (pat s cap rest : List Char), matchLit pat s = some (cap, rest) →
      cap.length = pat.length ∧
      ∀ (hc : cap ≠ []) (hp : pat ≠ []),
        lowerAscii (cap.head hc) = lowerAscii (pat.head hp) ∧
        lowerAscii (cap.getLast hc) = lowerAscii (pat.getLast hp)
  | [], s, cap, rest, h => by
    simp only [matchLit, Option.some.injEq, Prod.mk.injEq] at h
    obtain ⟨h1, _⟩ := h
    subst h1
    exact ⟨rfl, fun hc _ => absurd rfl hc⟩
  | _ :: _, [], cap, rest, h => by simp [matchLit] at h
  | p :: ps, c :: cs, cap, rest, h => by
    simp only [matchLit] at h
    split at h
    case isFalse => simp at h
    case isTrue hif =>
      cases hrec : matchLit ps cs with
      | none => rw [hrec] at h; simp at h
      | some pr =>
        obtain ⟨cap', rest'⟩ := pr
        rw [hrec] at h
        simp only [Option.some.injEq, Prod.mk.injEq] at h
        obtain ⟨hcap, hrest⟩ := h
        subst hcap
        obtain ⟨hlen, hends⟩ := matchLit_ends ps cs cap' rest' hrec
        refine ⟨by simp [hlen], fun hc hp => ⟨by simpa using hif, ?_⟩⟩
        by_cases hcap' : cap' = []
        · have hps : ps = [] := by
            rw [hcap'] at hlen
            exact List.length_eq_zero.mp hlen.symm
          subst hcap'
          subst hps
          simpa using hif
        · have hpsne : ps ≠ [] := by
            intro hps
            rw [hps] at hlen
            exact hcap' (List.length_eq_zero.mp hlen)
          rw [List.getLast_cons hcap', List.getLast_cons hpsne]
          exact (hends hcap' hpsne).2

theorem jsTrim_eq_self {l : List Char} (hne : l ≠ [])
    (hh : jsWs (l.head hne) = false) (hl : jsWs (l.getLast hne) = false) :
    jsTrim l = l := by
  have h1 : l.dropWhile jsWs = l := by
    conv_lhs => rw [← List.head_cons_tail l hne]
    rw [List.dropWhile_cons]
    simp [hh, List.head_cons_tail]
  have hrevform : l.reverse = l.getLast hne :: l.dropLast.reverse := by
    conv_lhs => rw [← List.dropLast_append_getLast hne]
    rw [List.reverse_append]
    simp
  have h2 : l.reverse.dropWhile jsWs = l.reverse := by
    rw [hrevform, List.dropWhile_cons]
    simp [hl]
  unfold jsTrim
  rw [h1, h2, List.reverse_reverse]

theorem cap_good_of_ends {cap : List Char} (hne : cap ≠ [])
    (hh : jsWs (cap.head hne) = false) (hl : jsWs (cap.getLast hne) = false) :
    cap ≠ [] ∧ jsTrim cap = cap :=
  ⟨hne, jsTrim_eq_self hne hh hl⟩

theorem matchLit_cap_good {pat s cap rest : List Char} {a b : Char}
    (h : matchLit pat s = some (cap, rest)) (hpne : pat ≠ [])
    (hha : lowerAscii (pat.head hpne) = a)
    (hlb : lowerAscii (pat.getLast hpne) = b)
    (hwa : jsWs a = false) (hwb : jsWs b = false) :
    cap ≠ [] ∧ jsTrim cap = cap := by
  obtain ⟨hlen, hends⟩ := matchLit_ends pat s cap rest h
  have hcne : cap ≠ [] := by
    intro hnil
    rw [hnil] at hlen
    exact hpne (List.length_eq_zero.mp hlen.symm)
  obtain ⟨hh, hl⟩ := hends hcne hpne
  refine cap_good_of_ends hcne ?_ ?_
  · exact jsWs_false_of_lower (by rw [hh, hha]) hwa
  · exact jsWs_false_of_lower (by rw [hl, hlb]) hwb

theorem matchPage_cap_good {s cap rest : List Char}
    (h : matchPage s = some (cap, rest)) : cap ≠ [] ∧ jsTrim cap = cap := by
  unfold matchPage at h
  cases h4 : matchLit "page ".data s with
  | none => rw [h4] at h; simp at h
  | some pr =>
    obtain ⟨capl, restl⟩ := pr
    rw [h4] at h
    dsimp only at h
    split at h
    case isTrue => simp at h
    case isFalse hdig =>
      simp only [Option.some.injEq, Prod.mk.injEq] at h
      obtain ⟨ecap, _⟩ := h
      subst ecap
      have hdne : restl.takeWhile isDigitCh ≠ [] := by
        intro hnil
        rw [hnil] at hdig
        exact hdig rfl
      have hlne : capl ≠ [] := by
        intro hnil
        obtain ⟨hlen, _⟩ := matchLit_ends _ _ _ _ h4
        rw [hnil] at hlen
        exact absurd (List.length_eq_zero.mp hlen.symm) (by decide)
      obtain ⟨x, xs, rfl⟩ := List.exists_cons_of_ne_nil hlne
      have hxp : lowerAscii x = 'p' := by
        obtain ⟨_, hends⟩ := matchLit_ends _ _ _ _ h4
        have hx := (hends (by simp) (by decide)).1
        simp only [List.head_cons] at hx
        rw [hx]
        decide
      have hne2 : (x :: xs) ++ restl.takeWhile isDigitCh ≠ [] := by simp
      refine cap_good_of_ends hne2 ?_ ?_
      · simp only [List.cons_append, List.head_cons]
        exact jsWs_false_of_lower hxp (by decide)
      · rw [List.getLast_append,
          dif_neg (by simpa [List.isEmpty_iff] using hdne)]
        exact digit_not_ws
          (List.mem_takeWhile_imp (List.getLast_mem hdne))

theorem matchDashes_cap_good {s cap rest : List Char}
    (h : matchDashes s = some (cap, rest)) : cap ≠ [] ∧ jsTrim cap = cap := by
  unfold matchDashes at h
  dsimp only at h
  split at h
  case isFalse => simp at h
  case isTrue hlen5 =>
    simp only [Option.some.injEq, Prod.mk.injEq] at h
    obtain ⟨ecap, _⟩ := h
    subst ecap
    have hdne : s.takeWhile (fun c => c = '-') ≠ [] := by
      intro hnil
      rw [hnil] at hlen5
      simp at hlen5
    have hall : ∀ x ∈ s.takeWhile (fun c => c = '-'), x = '-' := by
      intro x hx
      have := List.mem_takeWhile_imp hx
      simpa using this
    refine cap_good_of_ends hdne ?_ ?_
    · rw [hall _ (List.head_mem hdne)]; decide
    · rw [hall _ (List.getLast_mem hdne)]; decide

theorem matchAlt_cap_good {s cap after : List Char}
    (h : matchAlt s = some (cap, after)) : cap ≠ [] ∧ jsTrim cap = cap := by
  unfold matchAlt at h
  cases h1 : matchLit "student:".data s with
  | some pr =>
    obtain ⟨c1, c2⟩ := pr
    rw [h1] at h
    dsimp only at h
    simp only [Option.some.injEq, Prod.mk.injEq] at h
    obtain ⟨e1, _⟩ := h
    subst e1
    exact matchLit_cap_good h1 (by decide) (a := 's') (b := ':')
      (by decide) (by decide) (by decide) (by decide)
  | none =>
    rw [h1] at h
    dsimp only at h
    cases h2 : matchLit "name:".data s with
    | some pr =>
      obtain ⟨c1, c2⟩ := pr
      rw [h2] at h
      dsimp only at h
      simp only [Option.some.injEq, Prod.mk.injEq] at h
      obtain ⟨e1, _⟩ := h
      subst e1
      exact matchLit_cap_good h2 (by decide) (a := 'n') (b := ':')
        (by decide) (by decide) (by decide) (by decide)
    | none =>
      rw [h2] at h
      dsimp only at h
      cases h3 : matchPage s with
      | some pr =>
        obtain ⟨c1, c2⟩ := pr
        rw [h3] at h
        dsimp only at h
        simp only [Option.some.injEq, Prod.mk.injEq] at h
        obtain ⟨e1, _⟩ := h
        subst e1
        exact matchPage_cap_good h3
      | none =>
        rw [h3] at h
        dsimp only at h
        exact matchDashes_cap_good h

theorem matchDelimAt_cap_good {s cap rem : List Char}
    (h : matchDelimAt s = some (cap, rem)) : cap ≠ [] ∧ jsTrim cap = cap := by
  unfold matchDelimAt at h
  cases s with
  | nil => simp at h
  | cons c cs =>
    dsimp only at h
    split at h
    case isFalse => simp at h
    case isTrue =>
      cases hma : matchAlt (cs.dropWhile jsWs) with
      | none => rw [hma] at h; simp at h
      | some pr =>
        obtain ⟨cap0, after⟩ := pr
        rw [hma] at h
        dsimp only at h
        cases hch : chopAfter after with
        | none => rw [hch] at h; simp at h
        | some rem0 =>
          rw [hch] at h
          dsimp only at h
          simp only [Option.some.injEq, Prod.mk.injEq] at h
          obtain ⟨e1, _⟩ := h
          subst e1
          exact matchAlt_cap_good hma

theorem splitKeep_delims :
    ∀ (fuel : Nat) (acc s : List Char) (p : List Char × List Char),
      p ∈ (splitKeep fuel acc s).2 → p.1 ≠ [] ∧ jsTrim p.1 = p.1
  | 0, acc, s, p, hp => by simp [splitKeep] at hp
  | fuel + 1, acc, s, p, hp => by
    simp only [splitKeep] at hp
    cases hm : matchDelimAt s with
    | some pr =>
      obtain ⟨cap, rem⟩ := pr
      rw [hm] at hp
      dsimp only at hp
      simp only [List.mem_cons] at hp
      rcases hp with hp | hp
      · subst hp
        exact matchDelimAt_cap_good hm
      · exact splitKeep_delims fuel [] rem p hp
    | none =>
      rw [hm] at hp
      dsimp only at hp
      cases s with
      | nil => simp at hp
      | cons c cs =>
        dsimp only at hp
        exact splitKeep_delims fuel (c :: acc) cs p hp

/- ------------------------------------------------------------------
   Lemmas about the pairing loop.
   ------------------------------------------------------------------ -/

theorem pairUp_length_le : ∀ l : List (List Char), (pairUp l).length ≤ l.length
  | [] => by simp [pairUp]
  | [a] => by simp [pairUp]
  | a :: b :: r => by
    have := pairUp_length_le r
    simp only [pairUp, List.length_cons]
    omega

theorem pairUp_ne_nil : ∀ l : List (List Char), l ≠ [] → pairUp l ≠ []
  | [], h => absurd rfl h
  | [a], _ => by simp [pairUp]
  | a :: b :: r, _ => by simp [pairUp]

/-- Pairing the filtered pieces of a scan whose first chunk was dropped:
when all delimiter captures are trim-invariant and nonempty and every
chunk except possibly the final one is nonempty after trimming, the loop
produces exactly one output per delimiter, each extending its delimiter. -/
theorem pairUp_parts :
    ∀ ps : List (List Char × List Char),
      (∀ p ∈ ps, p.1 ≠ [] ∧ jsTrim p.1 = p.1) →
      (∀ p ∈ ps.dropLast, jsTrim p.2 ≠ []) →
      ∃ tails : List (List Char),
        tails.length = ps.length ∧
        pairUp ((ps.flatMap fun p => [jsTrim p.1, jsTrim p.2]).filter
            fun t => 0 < t.length)
          = List.zipWith (fun p t => p.1 ++ t) ps tails
  | [], _, _ => ⟨[], rfl, rfl⟩
  | [(d, c)], hdel, _ => by
    obtain ⟨hdne, hdtrim⟩ := hdel (d, c) (by simp)
    have hd' : 0 < d.length := List.length_pos.mpr hdne
    by_cases hc : jsTrim c = []
    · refine ⟨[[]], rfl, ?_⟩
      simp only [List.flatMap_cons, List.flatMap_nil, List.append_nil,
        List.cons_append, List.nil_append, List.filter_cons, List.filter_nil,
        hdtrim, hc]
      simp [hd', pairUp]
    · refine ⟨['\n' :: jsTrim c], rfl, ?_⟩
      have hc' : 0 < (jsTrim c).length := List.length_pos.mpr hc
      simp only [List.flatMap_cons, List.flatMap_nil, List.append_nil,
        List.cons_append, List.nil_append, List.filter_cons, List.filter_nil,
        hdtrim]
      simp [hd', hc', pairUp, List.isEmpty_iff, hc]
  | (d, c) :: p2 :: rest, hdel, hmid => by
    obtain ⟨hdne, hdtrim⟩ := hdel (d, c) (by simp)
    have hd' : 0 < d.length := List.length_pos.mpr hdne
    have hcne : jsTrim c ≠ [] := by
      refine hmid (d, c) ?_
      rw [List.dropLast_cons₂]
      simp
    have hc' : 0 < (jsTrim c).length := List.length_pos.mpr hcne
    obtain ⟨tails, hlen, hpair⟩ := pairUp_parts (p2 :: rest)
      (fun p hp => hdel p (List.mem_cons_of_mem _ hp))
      (fun p hp => by
        refine hmid p ?_
        rw [List.dropLast_cons₂]
        exact List.mem_cons_of_mem _ hp)
    refine ⟨('\n' :: jsTrim c) :: tails, by simp [hlen], ?_⟩
    simp only [List.flatMap_cons, List.cons_append, List.filter_cons, hdtrim]
    rw [if_pos (by simpa using hd'), if_pos (by simpa using hc')]
    rw [show ∀ x y l, pairUp (x :: y :: l)
          = (if y.isEmpty then x else x ++ '\n' :: y) :: pairUp l
        from fun _ _ _ => rfl]
    rw [if_neg (by simpa [List.isEmpty_iff] using hcne)]
    simp only [List.flatMap_cons, List.cons_append, List.nil_append] at hpair ⊢
    rw [hpair, List.zipWith_cons_cons]

/- ------------------------------------------------------------------
   Claims about the submission splitter.
   ------------------------------------------------------------------ -/

/-- Claim C1 (amended): when the delimiter pattern matches k ≥ 2 times,
and the chunk before the first match trims to nothing, and every chunk
between two matches trims to something nonempty, the splitter returns
exactly k segments and segment i is its delimiter token extended by a
tail (the delimiter is paired with the chunk that follows it).  Without
the leading-chunk condition the first delimiter is instead appended to
the preceding text (see the counterexample). -/
theorem splitStudents_pairs_delims (text : String)
    (hk : 2 ≤ (scanText text).2.length)
    (h0 : jsTrim (scanText text).1 = [])
    (hmid : ∀ p ∈ (scanText text).2.dropLast, jsTrim p.2 ≠ []) :
    ∃ tails : List (List Char),
      tails.length = (scanText text).2.length ∧
      (splitStudentsFromText text).length = (scanText text).2.length ∧
      splitStudentsFromText text
        = List.zipWith (fun p t => String.mk (p.1 ++ t))
            (scanText text).2 tails := by
  obtain ⟨tails, hlen, hpair⟩ := pairUp_parts (scanText text).2
    (fun p hp => splitKeep_delims _ _ _ p hp) hmid
  have hparts : splitParts text
      = ((scanText text).2.flatMap fun p => [jsTrim p.1, jsTrim p.2]).filter
          fun t => 0 < t.length := by
    unfold splitParts
    rw [h0, List.filter_cons]
    simp
  have hplen : (pairUp (splitParts text)).length = (scanText text).2.length := by
    rw [hparts, hpair, List.length_zipWith, hlen]
    simp
  have hgt : ¬(splitParts text).length ≤ 1 := by
    intro hle
    have h1 := pairUp_length_le (splitParts text)
    rw [hplen] at h1
    omega
  refine ⟨tails, hlen, ?_, ?_⟩
  · unfold splitStudentsFromText
    rw [if_neg hgt]
    simp [hplen]
  · unfold splitStudentsFromText
    rw [if_neg hgt, hparts, hpair, List.map_zipWith]

theorem splitStudents_pairs_delims_witness :
    2 ≤ (scanText "\nStudent:\nAlice answer\nName:\nBob answer").2.length ∧
    jsTrim (scanText "\nStudent:\nAlice answer\nName:\nBob answer").1 = [] ∧
    (∀ p ∈ (scanText "\nStudent:\nAlice answer\nName:\nBob answer").2.dropLast,
      jsTrim p.2 ≠ []) ∧
    ∃ tails : List (List Char),
      tails.length
          = (scanText "\nStudent:\nAlice answer\nName:\nBob answer").2.length ∧
      (splitStudentsFromText "\nStudent:\nAlice answer\nName:\nBob answer").length
          = (scanText "\nStudent:\nAlice answer\nName:\nBob answer").2.length ∧
      splitStudentsFromText "\nStudent:\nAlice answer\nName:\nBob answer"
        = List.zipWith (fun p t => String.mk (p.1 ++ t))
            (scanText "\nStudent:\nAlice answer\nName:\nBob answer").2 tails :=
  ⟨by decide, by decide, by decide,
    splitStudents_pairs_delims "\nStudent:\nAlice answer\nName:\nBob answer"
      (by decide) (by decide) (by decide)⟩

/-- Claim C1 counterexample: on an input whose delimiter pattern matches
twice but which has text before the first delimiter, the splitter
returns three segments, and the first segment is the leading text with
the first delimiter appended — so the claim's "exactly k segments, each
starting with its delimiter line" fails as stated. -/
theorem splitStudents_leading_chunk_cex :
    (scanText "intro\nStudent:\nAlice\nStudent:\nBob").2.length = 2 ∧
    (splitStudentsFromText "intro\nStudent:\nAlice\nStudent:\nBob").length = 3 ∧
    splitStudentsFromText "intro\nStudent:\nAlice\nStudent:\nBob"
      = ["intro\nStudent:", "Alice\nStudent:", "Bob"] :=
  ⟨by decide, by decide, by decide⟩

/-- Claim C3 (amended): on any input where the delimiter pattern does not
match at all, the splitter returns the one-element sequence holding the
original input — unchanged, not trimmed.  (With exactly one match the
split can still produce two segments; see the counterexample.) -/
theorem splitStudents_no_match_id (text : String)
    (h : (scanText text).2 = []) : splitStudentsFromText text = [text] := by
  have hle : (splitParts text).length ≤ 1 := by
    unfold splitParts
    rw [h]
    simp only [List.flatMap_nil]
    exact le_trans (List.length_filter_le _ _) (by simp)
  unfold splitStudentsFromText
  rw [if_pos hle]

theorem splitStudents_no_match_id_witness :
    (scanText "hello world").2 = [] ∧
    splitStudentsFromText "hello world" = ["hello world"] :=
  ⟨by decide, splitStudents_no_match_id "hello world" (by decide)⟩

/-- Claim C3 counterexample: an input with exactly one delimiter match is
split into two segments (not returned whole), and a whitespace-padded
zero-match input is returned untrimmed (not equal to its trimmed form),
so "zero or one match returns one element equal to the trimmed input"
fails on both counts. -/
theorem splitStudents_single_match_cex :
    (scanText "x\nName:\ny").2.length = 1 ∧
    (splitStudentsFromText "x\nName:\ny").length = 2 ∧
    splitStudentsFromText "x\nName:\ny" = ["x\nName:", "y"] ∧
    (scanText " hello ").2 = [] ∧
    splitStudentsFromText " hello " = [" hello "] ∧
    (" hello " : String) ≠ "hello" :=
  ⟨by decide, by decide, by decide, by decide, by decide, by decide⟩

/-- Claim C4 (amended): the splitter splits at standalone lines holding
`Student:`, `Name:`, `Page <number>` or a run of *five* or more dashes,
case-insensitively (a line of exactly four dashes is not a delimiter —
the source regex `-----+` requires at least five). -/
theorem splitStudents_delimiter_classes :
    splitStudentsFromText "a\nStudent:\nb" = ["a\nStudent:", "b"] ∧
    splitStudentsFromText "a\nsTudEnt:\nb" = ["a\nsTudEnt:", "b"] ∧
    splitStudentsFromText "a\nNAME:\nb" = ["a\nNAME:", "b"] ∧
    splitStudentsFromText "a\npage 12\nb" = ["a\npage 12", "b"] ∧
    splitStudentsFromText "a\n-----\nb" = ["a\n-----", "b"] ∧
    splitStudentsFromText "a\n------\nb" = ["a\n------", "b"] :=
  ⟨by decide, by decide, by decide, by decide, by decide, by decide⟩

/-- Claim C4 counterexample: a standalone line of exactly four dashes is
not matched by the delimiter pattern (the source requires five or more
dashes), so the input is returned unsplit — refuting "a standalone line
of exactly four dashes is a split delimiter". -/
theorem splitStudents_four_dashes_cex :
    (scanText "a\n----\nb").2 = [] ∧
    splitStudentsFromText "a\n----\nb" = ["a\n----\nb"] :=
  ⟨by decide, by decide⟩

/-- Claim C10: on every input string — including empty and
whitespace-only inputs — the splitter returns at least one element. -/
theorem splitStudents_never_empty (text : String) :
    splitStudentsFromText text ≠ [] := by
  unfold splitStudentsFromText
  split
  · simp
  · rename_i hgt
    intro hmap
    rw [List.map_eq_nil_iff] at hmap
    have hne : splitParts text ≠ [] := by
      intro hp
      rw [hp] at hgt
      simp at hgt
    exact pairUp_ne_nil _ hne hmap

end Fastgrade
